import Mathlib

/-!
Verification of the pix2svg core (`src/lib.rs`): the greedy rectangle
extractor that tiles a pixel image with uniform-color rectangles, and the
SVG emitter that renders the rectangle list as text.

The Rust code is embedded shallowly:

* `Color`, `Rectangle`, `ConversionOptions`, `ConversionResult` mirror the
  structs of `lib.rs`; `u8`/`u32` channels and coordinates become `Nat`.
  Inside the extractor this is faithful (coordinates only grow up to the
  image dimensions, no `u32` operation there can reach 2³²), but the
  emitter's `coordinate * scale` products can overflow `u32`; those
  products are embedded with the release-build wrap `% 2³²` (see `U32`).
* The mutable `processed : Vec<Vec<bool>>` grid becomes an explicit
  `List (List Bool)` threaded through the loops.  Rust indexes it as
  `processed[y][x]` with no bounds check, which panics when out of range;
  here every grid access goes through `Option`, with `none` exactly on the
  out-of-range accesses, so the whole extraction returns `Option` and
  `none` models an (unreachable) index panic.
* Each `for`-loop with `break` becomes structural recursion on the
  remaining iteration count (`fuel` = number of loop iterations left),
  which is exactly the Rust range bound.
* `format!` string building becomes explicit string concatenation with
  executable decimal/hex digit renderers.
-/

/-- Embeds `struct Color { r, g, b, a : u8 }`.  Channels are `Nat`s that the
image decoder keeps below 256; derived equality is channel-wise like Rust's
`PartialEq`. -/
structure Color where
  r : Nat
  g : Nat
  b : Nat
  a : Nat
deriving DecidableEq, Repr

/-- Embeds `Color::is_transparent`: `self.a < threshold`. -/
def Color.is_transparent (c : Color) (threshold : Nat) : Bool :=
  c.a < threshold

/-- Embeds `struct Rectangle { x, y, width, height : u32, color : Color }`. -/
structure Rectangle where
  x : Nat
  y : Nat
  width : Nat
  height : Nat
  color : Color
deriving DecidableEq, Repr

/-- Embeds `struct ConversionOptions` with its four fields. -/
structure ConversionOptions where
  scale : Nat
  alpha_threshold : Nat
  skip_transparent : Bool
  crisp_edges : Bool
deriving DecidableEq, Repr

/-- Embeds `ConversionOptions::default()`. -/
def ConversionOptions.default : ConversionOptions :=
  { scale := 1, alpha_threshold := 1, skip_transparent := true, crisp_edges := true }

/-- A decoded in-memory image: dimensions plus an RGBA pixel lookup, the
shallow embedding of the `RgbaImage` buffer consumed by `ImageProcessor`
(`image.get_pixel(x, y)` is total on the in-bounds domain; the embedding
makes it a total function and the code only ever queries it in bounds). -/
structure Img where
  width : Nat
  height : Nat
  pix : Nat → Nat → Color

/-- Embeds `struct ConversionResult`. -/
structure ConversionResult where
  svg_content : String
  rectangle_count : Nat
  image_dimensions : Nat × Nat
deriving DecidableEq, Repr

/-- Embeds `ConversionResult::svg_size_bytes` (`self.svg_content.len()`,
a byte length; the SVG text is ASCII so bytes = characters). -/
def ConversionResult.svg_size_bytes (res : ConversionResult) : Nat :=
  res.svg_content.length

/-! ## String rendering helpers

`format!("{}")`, `format!("{:02X}")` and `format!("{:.3}")` are embedded as
executable digit renderers. -/

/-- Decimal digit character, `n` expected in `0..9`. -/
def digitChar (n : Nat) : Char :=
  if n = 0 then '0' else if n = 1 then '1' else if n = 2 then '2'
  else if n = 3 then '3' else if n = 4 then '4' else if n = 5 then '5'
  else if n = 6 then '6' else if n = 7 then '7' else if n = 8 then '8' else '9'

/-- Uppercase hex digit character, `n` expected in `0..15`. -/
def hexChar (n : Nat) : Char :=
  if n < 10 then digitChar n
  else if n = 10 then 'A' else if n = 11 then 'B' else if n = 12 then 'C'
  else if n = 13 then 'D' else if n = 14 then 'E' else 'F'

/-- Digit peeling for decimal rendering (standard least-significant-digit
recursion, matching the decimal numerals `format!("{}")` prints).  `fuel`
only bounds the recursion depth: any `fuel ≥` the digit count of `n` gives
the full numeral, and `natStr` passes `n + 1`, which always suffices, so
the zero-fuel branch is unreachable. -/
def natStrAux : Nat → Nat → List Char
  | 0, _ => []
  | fuel + 1, n =>
    if n < 10 then [digitChar n]
    else natStrAux fuel (n / 10) ++ [digitChar (n % 10)]

/-- Decimal rendering of a `Nat`, embedding `format!("{}", n)`. -/
def natStr (n : Nat) : String :=
  ⟨natStrAux (n + 1) n⟩

/-- Embeds `format!("{:02X}", n)` for a `u8` value: exactly two uppercase
hex digits. -/
def hex2 (n : Nat) : String :=
  ⟨[hexChar (n / 16), hexChar (n % 16)]⟩

/-- Embeds `Color::to_hex`: `format!("{:02X}{:02X}{:02X}", r, g, b)`. -/
def Color.to_hex (c : Color) : String :=
  hex2 c.r ++ hex2 c.g ++ hex2 c.b

/-- Numerator of `a/255` rounded to the nearest thousandth: the fractional
digits `format!("{:.3}", a as f32 / 255.0)` prints (for `a ≤ 255`).

Why this models the f32 formatting exactly: `{:.3}` rounds the formatted
value to the nearest multiple of 1/1000.  The exact rational `a/255` is
never at a tie (`a/255 = (2k+1)/2000` would force `2000·a = 255·(2k+1)`,
even = odd), and its distance to every tie point `(2k+1)/2000` is at least
`1/510000`, while the nearest-f32 rounding error of `a/255.0` is at most
`2⁻²⁴ < 1/510000`; so the f32 value lies strictly on the same side of every
rounding boundary as the exact rational and both round to the same three
digits.  `(2000*a + 255) / 510` is floor-of-(x + 1/2), i.e. round-to-nearest
of `1000*a/255`. -/
def round3Num (a : Nat) : Nat :=
  (2000 * a + 255) / 510

/-- Exactly three zero-padded decimal digits, `m` expected in `0..999`. -/
def pad3 (m : Nat) : String :=
  ⟨[digitChar (m / 100), digitChar (m / 10 % 10), digitChar (m % 10)]⟩

/-- The text `format!("{:.3}", color.opacity())` prints: `0.` followed by the
three rounded fractional digits of `a/255` (see `round3Num`; for `a ≤ 254`
the rounded numerator stays below 1000, so the integer part is `0`). -/
def opacity3 (c : Color) : String :=
  "0." ++ pad3 (round3Num c.a)

/-- The `u32` modulus 2³².  The emitter's `coordinate * scale`
multiplications are `u32 * u32` in Rust: on overflow they wrap modulo 2³²
in release builds (and panic in debug builds); the embedding uses the
release-build wrap so that overflow is observable in the rendered text. -/
def U32 : Nat :=
  4294967296

/-- Embeds `Rectangle::to_svg(scale)`: the `<rect .../>` element text, with
an `opacity` attribute exactly when `color.a != 255`.  Each `self.* * scale`
is a `u32` product and is taken modulo `U32` (wrap on overflow). -/
def Rectangle.to_svg (rect : Rectangle) (scale : Nat) : String :=
  "<rect x=\"" ++ natStr (rect.x * scale % U32) ++
  "\" y=\"" ++ natStr (rect.y * scale % U32) ++
  "\" width=\"" ++ natStr (rect.width * scale % U32) ++
  "\" height=\"" ++ natStr (rect.height * scale % U32) ++
  "\" fill=\"#" ++ rect.color.to_hex ++ "\" " ++
  (if rect.color.a ≠ 255 then "opacity=\"" ++ opacity3 rect.color ++ "\" " else "") ++
  "/>"

/-- Embeds `Rectangle::area`. -/
def Rectangle.area (rect : Rectangle) : Nat :=
  rect.width * rect.height

/-! ## The coverage grid and pixel lookup -/

/-- The `processed : Vec<Vec<bool>>` coverage grid. -/
abbrev Grid := List (List Bool)

/-- Embeds `ImageProcessor::get_pixel_color`: `None` when out of bounds or
when the pixel is transparent w.r.t. the threshold, otherwise the color. -/
def get_pixel_color (img : Img) (alpha_threshold : Nat) (x y : Nat) : Option Color :=
  if x ≥ img.width ∨ y ≥ img.height then none
  else
    let color := img.pix x y
    if color.is_transparent alpha_threshold then none else some color

/-- Embeds `ImageProcessor::is_processed`: the unchecked read
`self.processed[y as usize][x as usize]`; `none` is the Rust index panic. -/
def is_processed (g : Grid) (x y : Nat) : Option Bool :=
  match g[y]? with
  | none => none
  | some row => row[x]?

/-- One unchecked write `self.processed[y][x] = true`; `none` is the Rust
index panic. -/
def set_processed (g : Grid) (x y : Nat) : Option Grid :=
  match g[y]? with
  | none => none
  | some row => if x < row.length then some (g.set y (row.set x true)) else none

/-- The footprint positions of a rectangle in the loop order of
`mark_processed` (`for y in rect.y..rect.y+height { for x in ... }`). -/
def footprint (rect : Rectangle) : List (Nat × Nat) :=
  (List.range rect.height).flatMap (fun dy =>
    (List.range rect.width).map (fun dx => (rect.x + dx, rect.y + dy)))

/-- Embeds `ImageProcessor::mark_processed`: set every footprint cell. -/
def mark_processed (g : Grid) (rect : Rectangle) : Option Grid :=
  (footprint rect).foldlM (fun g' p => set_processed g' p.1 p.2) g

/-! ## The greedy growth loops of `find_max_rectangle` -/

/-- The width-growth loop `for x in start_x..self.width { ... }` of
`find_max_rectangle`, with `fuel` the remaining iterations
(`self.width - x`).  Returns the run length of consecutive pixels from `x`
that are unprocessed and have exactly `color` (Rust's
`max_width = x - start_x + 1` accumulation computes the same run length). -/
def growWidth (img : Img) (thr : Nat) (g : Grid) (start_y : Nat) (color : Color) :
    Nat → Nat → Option Nat
  | _, 0 => some 0
  | x, fuel + 1 => do
    let p ← is_processed g x start_y
    if p then pure 0
    else
      match get_pixel_color img thr x start_y with
      | none => pure 0
      | some pixel_color =>
        if pixel_color = color then do
          let n ← growWidth img thr g start_y color (x + 1) fuel
          pure (n + 1)
        else pure 0

/-- The inner row check of the height-growth loop:
`for x in start_x..start_x + max_width { ... }` with `fuel` the remaining
window cells; computes `can_extend` for one row (stopping, like `break`,
at the first failing cell). -/
def rowAll (img : Img) (thr : Nat) (g : Grid) (y : Nat) (color : Color) :
    Nat → Nat → Option Bool
  | _, 0 => some true
  | x, fuel + 1 => do
    let p ← is_processed g x y
    if p then pure false
    else
      match get_pixel_color img thr x y with
      | none => pure false
      | some pixel_color =>
        if pixel_color = color then rowAll img thr g y color (x + 1) fuel
        else pure false

/-- The height-growth loop `for y in start_y..self.height { ... }` of
`find_max_rectangle`, with `fuel = self.height - y` remaining iterations:
counts consecutive rows whose whole `[start_x, start_x + max_width)` window
still matches (Rust's `max_height = y - start_y + 1` accumulation). -/
def growHeight (img : Img) (thr : Nat) (g : Grid) (start_x max_width : Nat) (color : Color) :
    Nat → Nat → Option Nat
  | _, 0 => some 0
  | y, fuel + 1 => do
    let ok ← rowAll img thr g y color start_x max_width
    if ok then do
      let n ← growHeight img thr g start_x max_width color (y + 1) fuel
      pure (n + 1)
    else pure 0

/-- Embeds `ImageProcessor::find_max_rectangle`: lock in the first-row run
length, then grow the row window downwards. -/
def find_max_rectangle (img : Img) (thr : Nat) (g : Grid) (start_x start_y : Nat)
    (color : Color) : Option Rectangle := do
  let max_width ← growWidth img thr g start_y color start_x (img.width - start_x)
  let max_height ← growHeight img thr g start_x max_width color start_y
    (img.height - start_y)
  pure (Rectangle.mk start_x start_y max_width max_height color)

/-! ## The raster scan of `extract_rectangles` -/

/-- The raster-order position list of the double loop
`for y in 0..height { for x in 0..width { ... } }`. -/
def raster_positions (w h : Nat) : List (Nat × Nat) :=
  (List.range h).flatMap (fun y => (List.range w).map (fun x => (x, y)))

/-- One iteration of the scan body of `extract_rectangles` on state
(grid, rectangles-so-far). -/
def extract_step (img : Img) (thr : Nat) (st : Grid × List Rectangle) (p : Nat × Nat) :
    Option (Grid × List Rectangle) := do
  let pr ← is_processed st.1 p.1 p.2
  if pr then pure st
  else
    match get_pixel_color img thr p.1 p.2 with
    | some color => do
      let rect ← find_max_rectangle img thr st.1 p.1 p.2 color
      let g' ← mark_processed st.1 rect
      pure (g', st.2 ++ [rect])
    | none => do
      let g' ← set_processed st.1 p.1 p.2
      pure (g', st.2)

/-- The grid allocation `vec![vec![false; width]; height]` of
`ImageProcessor::new`. -/
def init_grid (img : Img) : Grid :=
  List.replicate img.height (List.replicate img.width false)

/-- Embeds `ImageProcessor::extract_rectangles`: raster scan threading the
coverage grid, collecting rectangles in emission order.  `none` would mean
a grid index panic in the Rust code. -/
def extract_rectangles (img : Img) (thr : Nat) : Option (List Rectangle) :=
  ((raster_positions img.width img.height).foldlM (extract_step img thr)
    (init_grid img, ([] : List Rectangle))).map Prod.snd

/-! ## The SVG emitter and the façade -/

/-- Embeds `create_svg`: XML declaration, `<svg>` tag (dimensions scaled,
optional crisp-edges hint), one line per rectangle in order, closing tag.
The `width * options.scale` and `height * options.scale` products are `u32`
and are taken modulo `U32` (wrap on overflow). -/
def create_svg (rectangles : List Rectangle) (width height : Nat)
    (options : ConversionOptions) : String :=
  "<?xml version=\"1.0\" encoding=\"UTF-8\"?>\n" ++
  ("<svg version=\"1.1\" width=\"" ++ natStr (width * options.scale % U32) ++
   "\" height=\"" ++ natStr (height * options.scale % U32) ++
   "\" xmlns=\"http://www.w3.org/2000/svg\"" ++
   (if options.crisp_edges then " shape-rendering=\"crispEdges\"" else "") ++
   ">\n") ++
  String.join (rectangles.map (fun rect => rect.to_svg options.scale ++ "\n")) ++
  "</svg>\n"

/-- Embeds `convert_image_to_svg`.  The Rust function returns
`Result<ConversionResult, _>` and its body is `Ok(...)` with no fallible
step; the outer `Option` carries the (unreachable) grid-index panic of the
extractor, and the `Except` layer is the Rust `Result`. -/
def convert_image_to_svg (img : Img) (options : ConversionOptions) :
    Option (Except String ConversionResult) :=
  (extract_rectangles img options.alpha_threshold).map (fun rectangles =>
    Except.ok
      { svg_content := create_svg rectangles img.width img.height options
        rectangle_count := rectangles.length
        image_dimensions := (img.width, img.height) })

/-- Embeds `convert_file_to_svg`, parameterized by the outcome of the
external `image::open` call (`decoded`): a decode error is propagated
unchanged by `?`, a decoded image is forwarded to `convert_image_to_svg`. -/
def convert_file_to_svg (decoded : Except String Img) (options : ConversionOptions) :
    Option (Except String ConversionResult) :=
  match decoded with
  | Except.error e => some (Except.error e)
  | Except.ok img => convert_image_to_svg img options

/-- Embeds `save_svg_to_file`, parameterized by the outcome of the external
`std::fs::write` call: `std::fs::write(...)?; Ok(())`. -/
def save_svg_to_file (writeResult : Except String Unit) : Except String Unit :=
  match writeResult with
  | Except.error e => Except.error e
  | Except.ok _ => Except.ok ()

/-! ## Semantic vocabulary for the correctness statements -/

/-- Pixel `(a, b)` lies in the footprint `[x, x+width) × [y, y+height)` of a
rectangle. -/
def inRect (rect : Rectangle) (a b : Nat) : Prop :=
  rect.x ≤ a ∧ a < rect.x + rect.width ∧ rect.y ≤ b ∧ b < rect.y + rect.height

instance (rect : Rectangle) (a b : Nat) : Decidable (inRect rect a b) :=
  inferInstanceAs (Decidable (_ ∧ _ ∧ _ ∧ _))

/-- Pixel `(a, b)` is inside some rectangle of the list. -/
def covered (rects : List Rectangle) (a b : Nat) : Prop :=
  ∃ r ∈ rects, inRect r a b

/-- Pixel `(a, b)` is transparent for threshold `thr` (`alpha < thr`). -/
def transparentPix (img : Img) (thr : Nat) (a b : Nat) : Prop :=
  (img.pix a b).a < thr

instance (img : Img) (thr a b : Nat) : Decidable (transparentPix img thr a b) :=
  inferInstanceAs (Decidable (_ < _))

/-- Well-formedness of the coverage grid: `h` rows of length `w`. -/
def GridWF (g : Grid) (w h : Nat) : Prop :=
  g.length = h ∧ ∀ (i : Nat) (row : List Bool), g[i]? = some row → row.length = w

/-! ## Grid access lemmas -/

lemma is_processed_isSome {g : Grid} {w h : Nat} (hwf : GridWF g w h)
    {x y : Nat} (hx : x < w) (hy : y < h) : ∃ b, is_processed g x y = some b := by
  obtain ⟨hlen, hrow⟩ := hwf
  have hy' : y < g.length := by omega
  have hget : g[y]? = some g[y] := List.getElem?_eq_getElem hy'
  have hrowlen : g[y].length = w := hrow y _ hget
  have hx' : x < g[y].length := by omega
  refine ⟨g[y][x], ?_⟩
  unfold is_processed
  rw [hget]
  exact List.getElem?_eq_getElem hx'

lemma set_processed_spec {g : Grid} {w h : Nat} (hwf : GridWF g w h)
    {x y : Nat} (hx : x < w) (hy : y < h) :
    ∃ g', set_processed g x y = some g' ∧ GridWF g' w h ∧
      ∀ a b, is_processed g' a b =
        if a = x ∧ b = y then some true else is_processed g a b := by
  obtain ⟨hlen, hrow⟩ := hwf
  have hy' : y < g.length := by omega
  have hget : g[y]? = some g[y] := List.getElem?_eq_getElem hy'
  have hrowlen : g[y].length = w := hrow y _ hget
  refine ⟨g.set y (g[y].set x true), ?_, ⟨by simp [hlen], ?_⟩, ?_⟩
  · unfold set_processed
    rw [hget]
    simp only [hrowlen]
    rw [if_pos hx]
  · intro i row hi
    rw [List.getElem?_set] at hi
    by_cases hiy : y = i
    · subst hiy
      rw [if_pos rfl, if_pos hy'] at hi
      cases hi
      simp [hrowlen]
    · rw [if_neg hiy] at hi
      exact hrow i row hi
  · intro a b
    unfold is_processed
    rw [List.getElem?_set]
    by_cases hby : y = b
    · subst hby
      rw [if_pos rfl, if_pos hy', hget]
      show (g[y].set x true)[a]? = _
      rw [List.getElem?_set]
      by_cases hax : x = a
      · subst hax
        rw [if_pos rfl, if_pos (by omega), if_pos ⟨rfl, rfl⟩]
      · rw [if_neg hax, if_neg (by tauto)]
    · rw [if_neg hby, if_neg (by tauto)]

lemma foldl_set_spec {w h : Nat} :
    ∀ (ps : List (Nat × Nat)) (g : Grid), GridWF g w h →
    (∀ p ∈ ps, p.1 < w ∧ p.2 < h) →
    ∃ g', ps.foldlM (fun gg (p : Nat × Nat) => set_processed gg p.1 p.2) g = some g' ∧
      GridWF g' w h ∧
      ∀ a b, is_processed g' a b =
        if (a, b) ∈ ps then some true else is_processed g a b := by
  intro ps
  induction ps with
  | nil =>
    intro g hwf _
    exact ⟨g, rfl, hwf, fun a b => by simp⟩
  | cons p ps ih =>
    intro g hwf hin
    obtain ⟨hp1, hp2⟩ := hin p (List.mem_cons_self p ps)
    obtain ⟨g₁, hg₁, hwf₁, hchar₁⟩ := set_processed_spec hwf hp1 hp2
    obtain ⟨g', hg', hwf', hchar'⟩ :=
      ih g₁ hwf₁ (fun q hq => hin q (List.mem_cons_of_mem p hq))
    refine ⟨g', ?_, hwf', ?_⟩
    · rw [List.foldlM_cons, hg₁]
      exact hg'
    · intro a b
      rw [hchar' a b, hchar₁ a b]
      by_cases hmem : (a, b) ∈ ps
      · simp [hmem]
      · rw [if_neg hmem]
        by_cases heq : (a, b) = p
        · have h1 : a = p.1 ∧ b = p.2 := by
            constructor <;> (rw [← heq])
          rw [if_pos h1, if_pos (by simp [heq])]
        · have h1 : ¬(a = p.1 ∧ b = p.2) := by
            intro ⟨h1, h2⟩
            exact heq (by rw [h1, h2])
          rw [if_neg h1, if_neg (by simp [heq, hmem])]

lemma mem_footprint (rect : Rectangle) (a b : Nat) :
    (a, b) ∈ footprint rect ↔ inRect rect a b := by
  unfold footprint inRect
  simp only [List.mem_flatMap, List.mem_map, List.mem_range, Prod.mk.injEq]
  constructor
  · rintro ⟨dy, hdy, dx, hdx, hax, hby⟩
    omega
  · rintro ⟨h1, h2, h3, h4⟩
    exact ⟨b - rect.y, by omega, a - rect.x, by omega, by omega, by omega⟩

lemma mark_processed_spec {g : Grid} {w h : Nat} (hwf : GridWF g w h)
    {rect : Rectangle} (hxw : rect.x + rect.width ≤ w) (hyh : rect.y + rect.height ≤ h) :
    ∃ g', mark_processed g rect = some g' ∧ GridWF g' w h ∧
      ∀ a b, is_processed g' a b =
        if inRect rect a b then some true else is_processed g a b := by
  obtain ⟨g', hg', hwf', hchar⟩ := foldl_set_spec (footprint rect) g hwf (by
    intro p hp
    obtain ⟨pa, pb⟩ := p
    have := (mem_footprint rect pa pb).mp hp
    unfold inRect at this
    exact ⟨by omega, by omega⟩)
  refine ⟨g', hg', hwf', ?_⟩
  intro a b
  rw [hchar a b]
  by_cases hir : inRect rect a b
  · rw [if_pos ((mem_footprint rect a b).mpr hir), if_pos hir]
  · rw [if_neg (fun hm => hir ((mem_footprint rect a b).mp hm)), if_neg hir]

/-! ## Specifications of the greedy growth loops -/

lemma growWidth_spec (img : Img) (thr : Nat) (color : Color) (start_y : Nat)
    (hy : start_y < img.height) :
    ∀ (fuel x : Nat) (g : Grid), GridWF g img.width img.height →
    x + fuel ≤ img.width →
    ∃ n, growWidth img thr g start_y color x fuel = some n ∧ n ≤ fuel ∧
      (∀ j, j < n → is_processed g (x + j) start_y = some false ∧
        get_pixel_color img thr (x + j) start_y = some color) ∧
      (0 < fuel → is_processed g x start_y = some false →
        get_pixel_color img thr x start_y = some color → 0 < n) := by
  intro fuel
  induction fuel with
  | zero =>
    intro x g hwf hbound
    exact ⟨0, by simp [growWidth], by omega, fun j hj => absurd hj (by omega),
      fun h => absurd h (by omega)⟩
  | succ fuel ih =>
    intro x g hwf hbound
    obtain ⟨b, hb⟩ := is_processed_isSome hwf (show x < img.width by omega) hy
    cases b with
    | true =>
      refine ⟨0, by simp [growWidth, hb], by omega, fun j hj => absurd hj (by omega), ?_⟩
      intro _ hfalse
      rw [hb] at hfalse
      simp at hfalse
    | false =>
      cases hpc : get_pixel_color img thr x start_y with
      | none =>
        refine ⟨0, by simp [growWidth, hb, hpc], by omega,
          fun j hj => absurd hj (by omega), ?_⟩
        intro _ _ hc
        exact absurd hc (by simp)
      | some c =>
        by_cases hcc : c = color
        · subst hcc
          obtain ⟨n, hn, hle, hprops, _⟩ := ih (x + 1) g hwf (by omega)
          refine ⟨n + 1, by simp [growWidth, hb, hpc, hn], by omega, ?_,
            fun _ _ _ => by omega⟩
          intro j hj
          cases j with
          | zero => exact ⟨by simpa using hb, by simpa using hpc⟩
          | succ j' =>
            have := hprops j' (by omega)
            exact ⟨by rw [show x + (j' + 1) = x + 1 + j' by omega]; exact this.1,
                   by rw [show x + (j' + 1) = x + 1 + j' by omega]; exact this.2⟩
        · refine ⟨0, by simp [growWidth, hb, hpc, hcc], by omega,
            fun j hj => absurd hj (by omega), ?_⟩
          intro _ _ hc
          simp only [Option.some.injEq] at hc
          exact absurd hc hcc

lemma rowAll_spec (img : Img) (thr : Nat) (color : Color) (y : Nat)
    (hy : y < img.height) :
    ∀ (fuel x : Nat) (g : Grid), GridWF g img.width img.height →
    x + fuel ≤ img.width →
    ∃ b, rowAll img thr g y color x fuel = some b ∧
      (b = true ↔ ∀ j, j < fuel → is_processed g (x + j) y = some false ∧
        get_pixel_color img thr (x + j) y = some color) := by
  intro fuel
  induction fuel with
  | zero =>
    intro x g hwf hbound
    exact ⟨true, by simp [rowAll], ⟨fun _ j hj => absurd hj (by omega), fun _ => rfl⟩⟩
  | succ fuel ih =>
    intro x g hwf hbound
    obtain ⟨pb, hpb⟩ := is_processed_isSome hwf (show x < img.width by omega) hy
    cases pb with
    | true =>
      refine ⟨false, by simp [rowAll, hpb], ?_⟩
      constructor
      · intro h; exact absurd h (by simp)
      · intro hall
        have h0 := (hall 0 (by omega)).1
        rw [show x + 0 = x from rfl, hpb] at h0
        simp at h0
    | false =>
      cases hpc : get_pixel_color img thr x y with
      | none =>
        refine ⟨false, by simp [rowAll, hpb, hpc], ?_⟩
        constructor
        · intro h; exact absurd h (by simp)
        · intro hall
          have h0 := (hall 0 (by omega)).2
          rw [show x + 0 = x from rfl, hpc] at h0
          exact absurd h0 (by simp)
      | some c =>
        by_cases hcc : c = color
        · subst hcc
          obtain ⟨b, hbr, hbiff⟩ := ih (x + 1) g hwf (by omega)
          refine ⟨b, by simp [rowAll, hpb, hpc, hbr], ?_⟩
          constructor
          · intro hbt j hj
            cases j with
            | zero => exact ⟨by simpa using hpb, by simpa using hpc⟩
            | succ j' =>
              have := hbiff.mp hbt j' (by omega)
              exact ⟨by rw [show x + (j' + 1) = x + 1 + j' by omega]; exact this.1,
                     by rw [show x + (j' + 1) = x + 1 + j' by omega]; exact this.2⟩
          · intro hall
            apply hbiff.mpr
            intro j hj
            have := hall (j + 1) (by omega)
            exact ⟨by rw [show x + 1 + j = x + (j + 1) by omega]; exact this.1,
                   by rw [show x + 1 + j = x + (j + 1) by omega]; exact this.2⟩
        · refine ⟨false, by simp [rowAll, hpb, hpc, hcc], ?_⟩
          constructor
          · intro h; exact absurd h (by simp)
          · intro hall
            have h0 := (hall 0 (by omega)).2
            rw [show x + 0 = x from rfl, hpc] at h0
            simp only [Option.some.injEq] at h0
            exact absurd h0 hcc

lemma growHeight_spec (img : Img) (thr : Nat) (color : Color) (start_x max_width : Nat)
    (hxw : start_x + max_width ≤ img.width) :
    ∀ (fuel y : Nat) (g : Grid), GridWF g img.width img.height →
    y + fuel ≤ img.height →
    ∃ m, growHeight img thr g start_x max_width color y fuel = some m ∧ m ≤ fuel ∧
      (∀ i, i < m → ∀ j, j < max_width →
        is_processed g (start_x + j) (y + i) = some false ∧
        get_pixel_color img thr (start_x + j) (y + i) = some color) ∧
      (0 < fuel →
        (∀ j, j < max_width → is_processed g (start_x + j) y = some false ∧
          get_pixel_color img thr (start_x + j) y = some color) → 0 < m) := by
  intro fuel
  induction fuel with
  | zero =>
    intro y g hwf hb
    exact ⟨0, by simp [growHeight], by omega, fun i hi => absurd hi (by omega),
      fun h => absurd h (by omega)⟩
  | succ fuel ih =>
    intro y g hwf hb
    obtain ⟨rb, hrb, hriff⟩ :=
      rowAll_spec img thr color y (by omega) max_width start_x g hwf hxw
    cases rb with
    | false =>
      refine ⟨0, by simp [growHeight, hrb], by omega,
        fun i hi => absurd hi (by omega), ?_⟩
      intro _ hall
      exact absurd (hriff.mpr hall) (by simp)
    | true =>
      obtain ⟨m, hm, hmle, hmprops, _⟩ := ih (y + 1) g hwf (by omega)
      refine ⟨m + 1, by simp [growHeight, hrb, hm], by omega, ?_, fun _ _ => by omega⟩
      intro i hi j hj
      cases i with
      | zero =>
        have := hriff.mp rfl j hj
        exact ⟨by simpa using this.1, by simpa using this.2⟩
      | succ i' =>
        have := hmprops i' (by omega) j hj
        exact ⟨by rw [show y + (i' + 1) = y + 1 + i' by omega]; exact this.1,
               by rw [show y + (i' + 1) = y + 1 + i' by omega]; exact this.2⟩

lemma find_max_rectangle_spec (img : Img) (thr : Nat) (g : Grid)
    (hwf : GridWF g img.width img.height) {start_x start_y : Nat} {color : Color}
    (hx : start_x < img.width) (hy : start_y < img.height)
    (hp : is_processed g start_x start_y = some false)
    (hc : get_pixel_color img thr start_x start_y = some color) :
    ∃ rect, find_max_rectangle img thr g start_x start_y color = some rect ∧
      rect.x = start_x ∧ rect.y = start_y ∧ rect.color = color ∧
      0 < rect.width ∧ 0 < rect.height ∧
      rect.x + rect.width ≤ img.width ∧ rect.y + rect.height ≤ img.height ∧
      ∀ a b, inRect rect a b → is_processed g a b = some false ∧
        get_pixel_color img thr a b = some color := by
  obtain ⟨n, hn, hnle, hnprops, hnpos⟩ :=
    growWidth_spec img thr color start_y hy (img.width - start_x) start_x g hwf (by omega)
  have hn1 : 0 < n := hnpos (by omega) hp hc
  obtain ⟨m, hm, hmle, hmprops, hmpos⟩ :=
    growHeight_spec img thr color start_x n (by omega) (img.height - start_y) start_y g
      hwf (by omega)
  have hm1 : 0 < m := hmpos (by omega) (fun j hj => hnprops j hj)
  refine ⟨⟨start_x, start_y, n, m, color⟩, ?_, rfl, rfl, rfl, hn1, hm1,
    by simp; omega, by simp; omega, ?_⟩
  · simp [find_max_rectangle, hn, hm]
  · intro a b hab
    simp only [inRect] at hab
    have := hmprops (b - start_y) (by omega) (a - start_x) (by omega)
    rw [show start_x + (a - start_x) = a by omega,
        show start_y + (b - start_y) = b by omega] at this
    exact this

/-! ## Pixel lookup semantics -/

lemma get_pixel_color_some {img : Img} {thr a b : Nat} {c : Color}
    (ha : a < img.width) (hb : b < img.height) :
    get_pixel_color img thr a b = some c ↔
      img.pix a b = c ∧ ¬ transparentPix img thr a b := by
  unfold get_pixel_color transparentPix Color.is_transparent
  rw [if_neg (by omega)]
  by_cases ht : (img.pix a b).a < thr
  · simp [ht]
  · simp [ht]

lemma get_pixel_color_none {img : Img} {thr a b : Nat}
    (ha : a < img.width) (hb : b < img.height) :
    get_pixel_color img thr a b = none ↔ transparentPix img thr a b := by
  unfold get_pixel_color transparentPix Color.is_transparent
  rw [if_neg (by omega)]
  by_cases ht : (img.pix a b).a < thr
  · simp [ht]
  · simp [ht]

/-! ## The raster-scan invariant

`vis` is the list of raster positions already visited by the outer double
loop.  The invariant says: the grid is well-formed; a cell is marked exactly
when it lies in an emitted rectangle or is a visited transparent pixel;
every visited cell is marked; every emitted rectangle is nonempty, in
bounds, uniformly colored and opaque; footprints are pairwise disjoint. -/

structure ExtractInv (img : Img) (thr : Nat) (vis : List (Nat × Nat)) (g : Grid)
    (rects : List Rectangle) : Prop where
  wf : GridWF g img.width img.height
  gridChar : ∀ a b, a < img.width → b < img.height →
    (is_processed g a b = some true ↔ covered rects a b ∨
      (transparentPix img thr a b ∧ (a, b) ∈ vis))
  visCov : ∀ a b, (a, b) ∈ vis → a < img.width → b < img.height →
    is_processed g a b = some true
  rectsWF : ∀ r ∈ rects, 0 < r.width ∧ 0 < r.height ∧
    r.x + r.width ≤ img.width ∧ r.y + r.height ≤ img.height ∧
    ∀ a b, inRect r a b → img.pix a b = r.color ∧ ¬ transparentPix img thr a b
  disj : rects.Pairwise (fun r₁ r₂ => ∀ a b, ¬ (inRect r₁ a b ∧ inRect r₂ a b))

lemma extract_step_inv {img : Img} {thr : Nat} {vis : List (Nat × Nat)} {g : Grid}
    {rects : List Rectangle} (hinv : ExtractInv img thr vis g rects)
    {x y : Nat} (hx : x < img.width) (hy : y < img.height) :
    ∃ g' rects', extract_step img thr (g, rects) (x, y) = some (g', rects') ∧
      ExtractInv img thr (vis ++ [(x, y)]) g' rects' := by
  obtain ⟨pb, hpb⟩ := is_processed_isSome hinv.wf hx hy
  cases pb with
  | true =>
    refine ⟨g, rects, by simp [extract_step, hpb], ?_⟩
    refine ⟨hinv.wf, ?_, ?_, hinv.rectsWF, hinv.disj⟩
    · intro a b ha hb
      constructor
      · intro h
        rcases (hinv.gridChar a b ha hb).mp h with h1 | ⟨ht, hv⟩
        · exact Or.inl h1
        · exact Or.inr ⟨ht, List.mem_append_left _ hv⟩
      · rintro (h1 | ⟨ht, hv⟩)
        · exact (hinv.gridChar a b ha hb).mpr (Or.inl h1)
        · rcases List.mem_append.mp hv with h2 | h2
          · exact (hinv.gridChar a b ha hb).mpr (Or.inr ⟨ht, h2⟩)
          · have hab : a = x ∧ b = y := by simpa using h2
            rw [hab.1, hab.2]
            exact hpb
    · intro a b hv ha hb
      rcases List.mem_append.mp hv with h2 | h2
      · exact hinv.visCov a b h2 ha hb
      · have hab : a = x ∧ b = y := by simpa using h2
        rw [hab.1, hab.2]
        exact hpb
  | false =>
    cases hpc : get_pixel_color img thr x y with
    | none =>
      have ht : transparentPix img thr x y := (get_pixel_color_none hx hy).mp hpc
      obtain ⟨g₁, hset, hwf₁, hchar₁⟩ := set_processed_spec hinv.wf hx hy
      refine ⟨g₁, rects, by simp [extract_step, hpb, hpc, hset], ?_⟩
      refine ⟨hwf₁, ?_, ?_, hinv.rectsWF, hinv.disj⟩
      · intro a b ha hb
        rw [hchar₁ a b]
        by_cases hab : a = x ∧ b = y
        · rw [if_pos hab]
          constructor
          · intro _
            exact Or.inr ⟨by rw [hab.1, hab.2]; exact ht, by simp [hab.1, hab.2]⟩
          · intro _; rfl
        · rw [if_neg hab]
          constructor
          · intro h
            rcases (hinv.gridChar a b ha hb).mp h with h1 | ⟨ht', hv⟩
            · exact Or.inl h1
            · exact Or.inr ⟨ht', List.mem_append_left _ hv⟩
          · rintro (h1 | ⟨ht', hv⟩)
            · exact (hinv.gridChar a b ha hb).mpr (Or.inl h1)
            · rcases List.mem_append.mp hv with h2 | h2
              · exact (hinv.gridChar a b ha hb).mpr (Or.inr ⟨ht', h2⟩)
              · exact absurd (by simpa using h2) hab
      · intro a b hv ha hb
        rw [hchar₁ a b]
        by_cases hab : a = x ∧ b = y
        · rw [if_pos hab]
        · rw [if_neg hab]
          rcases List.mem_append.mp hv with h2 | h2
          · exact hinv.visCov a b h2 ha hb
          · exact absurd (by simpa using h2) hab
    | some color =>
      obtain ⟨rect, hfind, hrx, hry, hrc, hrw, hrh, hrbw, hrbh, hrprops⟩ :=
        find_max_rectangle_spec img thr g hinv.wf hx hy hpb hpc
      have hanchor : inRect rect x y := by
        unfold inRect
        omega
      obtain ⟨g₁, hmark, hwf₁, hchar₁⟩ := mark_processed_spec hinv.wf hrbw hrbh
      refine ⟨g₁, rects ++ [rect], by simp [extract_step, hpb, hpc, hfind, hmark], ?_⟩
      have hrinb : ∀ a b, inRect rect a b → a < img.width ∧ b < img.height := by
        intro a b hab
        unfold inRect at hab
        omega
      refine ⟨hwf₁, ?_, ?_, ?_, ?_⟩
      · intro a b ha hb
        rw [hchar₁ a b]
        by_cases hab : inRect rect a b
        · rw [if_pos hab]
          constructor
          · intro _
            exact Or.inl ⟨rect, List.mem_append_right _ (List.mem_singleton_self rect), hab⟩
          · intro _; rfl
        · rw [if_neg hab]
          constructor
          · intro h
            rcases (hinv.gridChar a b ha hb).mp h with h1 | ⟨ht', hv⟩
            · obtain ⟨r, hr, hir⟩ := h1
              exact Or.inl ⟨r, List.mem_append_left _ hr, hir⟩
            · exact Or.inr ⟨ht', List.mem_append_left _ hv⟩
          · rintro (h1 | ⟨ht', hv⟩)
            · obtain ⟨r, hr, hir⟩ := h1
              rcases List.mem_append.mp hr with h2 | h2
              · exact (hinv.gridChar a b ha hb).mpr (Or.inl ⟨r, h2, hir⟩)
              · rw [List.mem_singleton.mp h2] at hir
                exact absurd hir hab
            · rcases List.mem_append.mp hv with h2 | h2
              · exact (hinv.gridChar a b ha hb).mpr (Or.inr ⟨ht', h2⟩)
              · have hab' : a = x ∧ b = y := by simpa using h2
                rw [hab'.1, hab'.2] at hab
                exact absurd hanchor hab
      · intro a b hv ha hb
        rw [hchar₁ a b]
        by_cases hab : inRect rect a b
        · rw [if_pos hab]
        · rw [if_neg hab]
          rcases List.mem_append.mp hv with h2 | h2
          · exact hinv.visCov a b h2 ha hb
          · have hab' : a = x ∧ b = y := by simpa using h2
            rw [hab'.1, hab'.2] at hab
            exact absurd hanchor hab
      · intro r hr
        rcases List.mem_append.mp hr with h2 | h2
        · exact hinv.rectsWF r h2
        · rw [List.mem_singleton.mp h2]
          refine ⟨hrw, hrh, by omega, by omega, ?_⟩
          intro a b hab
          obtain ⟨ha, hb⟩ := hrinb a b hab
          have hsome := (hrprops a b hab).2
          rw [hrc]
          exact (get_pixel_color_some ha hb).mp hsome
      · rw [List.pairwise_append]
        refine ⟨hinv.disj, List.pairwise_singleton _ _, ?_⟩
        intro r₁ hr₁ r₂ hr₂ a b hcontra
        rw [List.mem_singleton.mp hr₂] at hcontra
        obtain ⟨hir₁, hirect⟩ := hcontra
        obtain ⟨ha, hb⟩ := hrinb a b hirect
        have hfalse := (hrprops a b hirect).1
        have htrue := (hinv.gridChar a b ha hb).mpr (Or.inl ⟨r₁, hr₁, hir₁⟩)
        rw [htrue] at hfalse
        simp at hfalse

lemma extract_fold_inv {img : Img} {thr : Nat} :
    ∀ (L vis : List (Nat × Nat)) (g : Grid) (rects : List Rectangle),
    (∀ p ∈ L, p.1 < img.width ∧ p.2 < img.height) →
    ExtractInv img thr vis g rects →
    ∃ g' rects', L.foldlM (extract_step img thr) (g, rects) = some (g', rects') ∧
      ExtractInv img thr (vis ++ L) g' rects' := by
  intro L
  induction L with
  | nil =>
    intro vis g rects _ hinv
    exact ⟨g, rects, rfl, by simpa using hinv⟩
  | cons p L ih =>
    intro vis g rects hin hinv
    obtain ⟨hp1, hp2⟩ := hin p (List.mem_cons_self p L)
    obtain ⟨pa, pb⟩ := p
    obtain ⟨g₁, rects₁, hstep, hinv₁⟩ := extract_step_inv hinv hp1 hp2
    obtain ⟨g', rects', hfold, hinv'⟩ := ih (vis ++ [(pa, pb)]) g₁ rects₁
      (fun q hq => hin q (List.mem_cons_of_mem _ hq)) hinv₁
    refine ⟨g', rects', ?_, ?_⟩
    · rw [List.foldlM_cons, hstep]
      exact hfold
    · rwa [List.append_assoc] at hinv'

lemma init_inv (img : Img) (thr : Nat) : ExtractInv img thr [] (init_grid img) [] := by
  refine ⟨⟨by simp [init_grid], ?_⟩, ?_, by simp, by simp, List.Pairwise.nil⟩
  · intro i row hi
    unfold init_grid at hi
    rw [List.getElem?_replicate] at hi
    split at hi
    · cases hi; simp
    · cases hi
  · intro a b ha hb
    unfold is_processed init_grid
    rw [List.getElem?_replicate, if_pos hb]
    show (List.replicate img.width false)[a]? = some true ↔ _
    rw [List.getElem?_replicate, if_pos ha]
    simp [covered]

lemma mem_raster_positions (w h a b : Nat) :
    (a, b) ∈ raster_positions w h ↔ a < w ∧ b < h := by
  unfold raster_positions
  simp only [List.mem_flatMap, List.mem_map, List.mem_range, Prod.mk.injEq]
  constructor
  · rintro ⟨y, hy, x, hx, hax, hby⟩
    omega
  · rintro ⟨ha, hb⟩
    exact ⟨b, hb, a, ha, rfl, rfl⟩

/-- Master specification of the extractor: it always succeeds, every opaque
pixel is covered, every rectangle is nonempty, in bounds, uniformly colored
and opaque, and footprints are pairwise disjoint. -/
lemma extract_rectangles_spec (img : Img) (thr : Nat) :
    ∃ rects, extract_rectangles img thr = some rects ∧
      (∀ a b, a < img.width → b < img.height → ¬ transparentPix img thr a b →
        covered rects a b) ∧
      (∀ r ∈ rects, 0 < r.width ∧ 0 < r.height ∧
        r.x + r.width ≤ img.width ∧ r.y + r.height ≤ img.height ∧
        ∀ a b, inRect r a b → img.pix a b = r.color ∧ ¬ transparentPix img thr a b) ∧
      rects.Pairwise (fun r₁ r₂ => ∀ a b, ¬ (inRect r₁ a b ∧ inRect r₂ a b)) := by
  obtain ⟨g', rects, hfold, hinv⟩ :=
    extract_fold_inv (raster_positions img.width img.height) [] (init_grid img) []
      (fun p hp => by
        obtain ⟨pa, pb⟩ := p
        exact (mem_raster_positions _ _ _ _).mp hp)
      (init_inv img thr)
  refine ⟨rects, ?_, ?_, hinv.rectsWF, hinv.disj⟩
  · unfold extract_rectangles
    rw [hfold]
    rfl
  · intro a b ha hb hnt
    have hvis : (a, b) ∈ ([] : List (Nat × Nat)) ++ raster_positions img.width img.height := by
      simp [mem_raster_positions, ha, hb]
    have htrue := hinv.visCov a b hvis ha hb
    rcases (hinv.gridChar a b ha hb).mp htrue with h | ⟨ht, _⟩
    · exact h
    · exact absurd ht hnt

/-! ## Concrete witness images -/

def wRed : Color := ⟨255, 0, 0, 255⟩

def wGreen : Color := ⟨0, 255, 0, 255⟩

def wBlue : Color := ⟨0, 0, 255, 255⟩

def wClear : Color := ⟨0, 0, 0, 0⟩

def wImg2x2 : Img := ⟨2, 2, fun _ _ => wRed⟩

def wImg2x1 : Img := ⟨2, 1, fun x _ => if x = 0 then wGreen else wBlue⟩

def wImgT : Img := ⟨2, 1, fun x _ => if x = 0 then wRed else wClear⟩

def wImg1x1 : Img := ⟨1, 1, fun _ _ => wRed⟩

/-! ## The claims -/

/-- C1: for every decoded pixel buffer and alpha threshold, the pixel
footprints of the rectangles returned by `extract_rectangles`, together with
the pixels whose alpha is below the threshold, partition the full grid:
every in-bounds opaque pixel lies in some emitted rectangle, no transparent
pixel lies in any rectangle, and distinct rectangles never overlap (so each
pixel is covered exactly once, with no gaps and no overlaps). -/
theorem extraction_tiles_grid (img : Img) (thr : Nat) (rects : List Rectangle)
    (h : extract_rectangles img thr = some rects) :
    (∀ a b, a < img.width → b < img.height → ¬ transparentPix img thr a b →
      ∃ r ∈ rects, inRect r a b) ∧
    (∀ a b, a < img.width → b < img.height → transparentPix img thr a b →
      ∀ r ∈ rects, ¬ inRect r a b) ∧
    List.Pairwise (fun r₁ r₂ => ∀ a b, ¬ (inRect r₁ a b ∧ inRect r₂ a b)) rects := by
  obtain ⟨rects', hex, hcov, hwf, hdisj⟩ := extract_rectangles_spec img thr
  rw [hex] at h
  injection h with h
  subst h
  refine ⟨fun a b ha hb hnt => hcov a b ha hb hnt, ?_, hdisj⟩
  intro a b ha hb ht r hr hir
  exact absurd ht ((hwf r hr).2.2.2.2 a b hir).2

/-- Concrete run of the tiling theorem: the all-red 2×2 image extracts to a
single 2×2 rectangle and the tiling conclusion holds for it. -/
theorem extraction_tiles_grid_witness :
    extract_rectangles wImg2x2 1 = some [⟨0, 0, 2, 2, wRed⟩] ∧
    ((∀ a b, a < wImg2x2.width → b < wImg2x2.height → ¬ transparentPix wImg2x2 1 a b →
        ∃ r ∈ [(⟨0, 0, 2, 2, wRed⟩ : Rectangle)], inRect r a b) ∧
     (∀ a b, a < wImg2x2.width → b < wImg2x2.height → transparentPix wImg2x2 1 a b →
        ∀ r ∈ [(⟨0, 0, 2, 2, wRed⟩ : Rectangle)], ¬ inRect r a b) ∧
     List.Pairwise (fun r₁ r₂ => ∀ a b, ¬ (inRect r₁ a b ∧ inRect r₂ a b))
       [(⟨0, 0, 2, 2, wRed⟩ : Rectangle)]) :=
  ⟨rfl, extraction_tiles_grid wImg2x2 1 [⟨0, 0, 2, 2, wRed⟩] rfl⟩

/-- C2: every rectangle emitted by extraction is uniformly colored — each
pixel of its footprint `[x, x+width) × [y, y+height)` equals the rectangle's
color in all four channels (`Color` equality is channel-wise) — and the
footprint lies within image bounds. -/
theorem extraction_rectangles_uniform (img : Img) (thr : Nat) (rects : List Rectangle)
    (h : extract_rectangles img thr = some rects) :
    ∀ r ∈ rects, r.x + r.width ≤ img.width ∧ r.y + r.height ≤ img.height ∧
      ∀ a b, inRect r a b → img.pix a b = r.color := by
  obtain ⟨rects', hex, _, hwf, _⟩ := extract_rectangles_spec img thr
  rw [hex] at h
  injection h with h
  subst h
  intro r hr
  exact ⟨(hwf r hr).2.2.1, (hwf r hr).2.2.2.1,
    fun a b hir => ((hwf r hr).2.2.2.2 a b hir).1⟩

/-- Concrete run of the purity theorem on the two-color 2×1 image. -/
theorem extraction_rectangles_uniform_witness :
    extract_rectangles wImg2x1 1 = some [⟨0, 0, 1, 1, wGreen⟩, ⟨1, 0, 1, 1, wBlue⟩] ∧
    (∀ r ∈ [(⟨0, 0, 1, 1, wGreen⟩ : Rectangle), ⟨1, 0, 1, 1, wBlue⟩],
      r.x + r.width ≤ wImg2x1.width ∧ r.y + r.height ≤ wImg2x1.height ∧
      ∀ a b, inRect r a b → wImg2x1.pix a b = r.color) :=
  ⟨rfl, extraction_rectangles_uniform wImg2x1 1 _ rfl⟩

/-- C3: no pixel whose alpha is strictly below the threshold lies inside the
footprint of any emitted rectangle. -/
theorem transparent_pixels_excluded (img : Img) (thr : Nat) (rects : List Rectangle)
    (h : extract_rectangles img thr = some rects) :
    ∀ r ∈ rects, ∀ a b, inRect r a b → ¬ (img.pix a b).a < thr := by
  obtain ⟨rects', hex, _, hwf, _⟩ := extract_rectangles_spec img thr
  rw [hex] at h
  injection h with h
  subst h
  intro r hr a b hir
  exact ((hwf r hr).2.2.2.2 a b hir).2

/-- Concrete run of the transparency-exclusion theorem on a half-transparent
2×1 image. -/
theorem transparent_pixels_excluded_witness :
    extract_rectangles wImgT 1 = some [⟨0, 0, 1, 1, wRed⟩] ∧
    (∀ r ∈ [(⟨0, 0, 1, 1, wRed⟩ : Rectangle)], ∀ a b, inRect r a b →
      ¬ (wImgT.pix a b).a < 1) :=
  ⟨rfl, transparent_pixels_excluded wImgT 1 _ rfl⟩

/-- C5: every rectangle produced by extraction has strictly positive width
and strictly positive height. -/
theorem extraction_rectangles_positive (img : Img) (thr : Nat) (rects : List Rectangle)
    (h : extract_rectangles img thr = some rects) :
    ∀ r ∈ rects, 0 < r.width ∧ 0 < r.height := by
  obtain ⟨rects', hex, _, hwf, _⟩ := extract_rectangles_spec img thr
  rw [hex] at h
  injection h with h
  subst h
  exact fun r hr => ⟨(hwf r hr).1, (hwf r hr).2.1⟩

/-- Concrete run of the positive-dimensions theorem on a 1×1 image. -/
theorem extraction_rectangles_positive_witness :
    extract_rectangles wImg1x1 1 = some [⟨0, 0, 1, 1, wRed⟩] ∧
    (∀ r ∈ [(⟨0, 0, 1, 1, wRed⟩ : Rectangle)], 0 < r.width ∧ 0 < r.height) :=
  ⟨rfl, extraction_rectangles_positive wImg1x1 1 _ rfl⟩

/-- C10: every coverage-grid access during extraction is within bounds.  In
the embedding each unchecked `processed[y][x]` read/write (`is_processed`,
`mark_processed`, the loops of `find_max_rectangle` and the scan of
`extract_rectangles`) returns `none` exactly when the index is out of range,
aborting the whole extraction; `extract_rectangles` returning `some` for
every image and threshold says precisely that the out-of-bounds branch is
never reached. -/
theorem extraction_in_bounds (img : Img) (thr : Nat) :
    ∃ rects, extract_rectangles img thr = some rects := by
  obtain ⟨rects, hex, _⟩ := extract_rectangles_spec img thr
  exact ⟨rects, hex⟩

/-- C4: the conversion is deterministic.  The embedding is a pure function
of the pixel buffer and the options (the Rust loops consult no global or
random state, and `Vec` iteration order is fixed), so equal inputs give the
identical rectangle sequence, byte-identical SVG text from `create_svg`,
and identical `convert_image_to_svg` results. -/
theorem conversion_deterministic (img₁ img₂ : Img) (o₁ o₂ : ConversionOptions)
    (hi : img₁ = img₂) (ho : o₁ = o₂) :
    extract_rectangles img₁ o₁.alpha_threshold =
      extract_rectangles img₂ o₂.alpha_threshold ∧
    (∀ (rects : List Rectangle) (w h : Nat),
      create_svg rects w h o₁ = create_svg rects w h o₂) ∧
    convert_image_to_svg img₁ o₁ = convert_image_to_svg img₂ o₂ := by
  subst hi
  subst ho
  exact ⟨rfl, fun _ _ _ => rfl, rfl⟩

/-- Concrete run of the determinism theorem on a 1×1 image with the default
options. -/
theorem conversion_deterministic_witness :
    wImg1x1 = wImg1x1 ∧ ConversionOptions.default = ConversionOptions.default ∧
    (extract_rectangles wImg1x1 ConversionOptions.default.alpha_threshold =
      extract_rectangles wImg1x1 ConversionOptions.default.alpha_threshold ∧
    (∀ (rects : List Rectangle) (w h : Nat),
      create_svg rects w h ConversionOptions.default =
        create_svg rects w h ConversionOptions.default) ∧
    convert_image_to_svg wImg1x1 ConversionOptions.default =
      convert_image_to_svg wImg1x1 ConversionOptions.default) :=
  ⟨rfl, rfl, conversion_deterministic wImg1x1 wImg1x1 _ _ rfl rfl⟩

/-- C6: the `skip_transparent` flag has no effect: neither the extractor
(which reads only `alpha_threshold`) nor the emitter (which reads only
`scale` and `crisp_edges`) consults it, so two option records differing only
in that flag give the same rectangle list and the same conversion result —
pixels below the threshold are always excluded. -/
theorem skip_transparent_no_effect (img : Img) (scale thr : Nat) (b₁ b₂ crisp : Bool) :
    extract_rectangles img (ConversionOptions.mk scale thr b₁ crisp).alpha_threshold =
      extract_rectangles img (ConversionOptions.mk scale thr b₂ crisp).alpha_threshold ∧
    convert_image_to_svg img ⟨scale, thr, b₁, crisp⟩ =
      convert_image_to_svg img ⟨scale, thr, b₂, crisp⟩ :=
  ⟨rfl, rfl⟩

/-- C9: `convert_image_to_svg` never fails: for every decoded image and
options it returns `some (Except.ok _)` — no grid panic (outer layer) and
no `Err` (the Rust body is `Ok(...)` with no fallible step).  The only
fallible pipeline steps are external: a decode error entering
`convert_file_to_svg` and a write error entering `save_svg_to_file` are
propagated unchanged. -/
theorem conversion_never_fails (img : Img) (options : ConversionOptions) :
    (∃ res, convert_image_to_svg img options = some (Except.ok res)) ∧
    (∀ e, convert_file_to_svg (Except.error e) options = some (Except.error e)) ∧
    (∀ e, save_svg_to_file (Except.error e) = Except.error e) := by
  refine ⟨?_, fun e => rfl, fun e => rfl⟩
  obtain ⟨rects, hex, _⟩ := extract_rectangles_spec img options.alpha_threshold
  refine ⟨ConversionResult.mk (create_svg rects img.width img.height options)
    rects.length (img.width, img.height), ?_⟩
  unfold convert_image_to_svg
  rw [hex]
  rfl

/-- Statement vocabulary for scale linearity: the rectangle with all four
coordinate/size fields multiplied by `k` and the color unchanged. -/
def scaleRect (k : Nat) (r : Rectangle) : Rectangle :=
  ⟨k * r.x, k * r.y, k * r.width, k * r.height, r.color⟩

/-- Counterexample to C7 as stated: the claim quantifies over every
rectangle list and scale `k ∈ 1..1000`, but the emitted numbers are `u32`
products.  At `x = 2³¹` and the in-range factor `k = 2`, the scale-1
document carries the attribute `x="2147483648"`, the product `x * 2` wraps
modulo 2³², and the scale-2 document carries `x="0"` — not `k` times the
scale-1 value — so the rendered element differs from the element whose
four attribute numbers are exactly doubled. -/
theorem scale_linearity_counterexample :
    (1 ≤ 2 ∧ 2 ≤ 1000) ∧
    Rectangle.to_svg ⟨2147483648, 0, 1, 1, wRed⟩ 1 =
      "<rect x=\"2147483648\" y=\"0\" width=\"1\" height=\"1\" fill=\"#FF0000\" />" ∧
    ¬ (2147483648 * 2 % U32 = 2 * (2147483648 * 1 % U32)) ∧
    Rectangle.to_svg ⟨2147483648, 0, 1, 1, wRed⟩ 2 ≠
      "<rect x=\"" ++ natStr (2 * (2147483648 * 1 % U32)) ++
      "\" y=\"" ++ natStr (2 * (0 * 1 % U32)) ++
      "\" width=\"" ++ natStr (2 * (1 * 1 % U32)) ++
      "\" height=\"" ++ natStr (2 * (1 * 1 % U32)) ++
      "\" fill=\"#FF0000\" />" :=
  ⟨by omega, by decide, by decide, by decide⟩

/-- C7 (amended): scale linearity in the overflow-free range.  For every
rectangle list, image dimensions and scale factor `k` in `1..1000` such
that no coordinate/size/dimension times `k` reaches 2³², every attribute
number emitted at scale `k` (`v * k % U32`) equals exactly `k` times the
attribute number emitted at scale 1 (`v * 1 % U32`), and the SVG text is
otherwise identical: the scale-`k` document equals the scale-1 document
rendered from the `k`-scaled data.  Without the no-overflow bound the
property fails, because the `u32` products wrap in release builds (panic
in debug) — see `scale_linearity_counterexample`. -/
theorem scale_linearity (rects : List Rectangle) (w h k thr : Nat) (skip crisp : Bool)
    (hk : 1 ≤ k ∧ k ≤ 1000) (hw : w * k < U32) (hh : h * k < U32)
    (hrects : ∀ r ∈ rects, r.x * k < U32 ∧ r.y * k < U32 ∧
      r.width * k < U32 ∧ r.height * k < U32) :
    (∀ r ∈ rects,
      r.x * k % U32 = k * (r.x * 1 % U32) ∧ r.y * k % U32 = k * (r.y * 1 % U32) ∧
      r.width * k % U32 = k * (r.width * 1 % U32) ∧
      r.height * k % U32 = k * (r.height * 1 % U32) ∧
      Rectangle.to_svg r k = Rectangle.to_svg (scaleRect k r) 1) ∧
    (w * k % U32 = k * (w * 1 % U32) ∧ h * k % U32 = k * (h * 1 % U32)) ∧
    create_svg rects w h ⟨k, thr, skip, crisp⟩ =
      create_svg (rects.map (scaleRect k)) (k * w) (k * h) ⟨1, thr, skip, crisp⟩ := by
  have hk1 : 1 ≤ k := hk.1
  have key : ∀ v : Nat, v * k < U32 → v * k % U32 = k * (v * 1 % U32) := by
    intro v hv
    have hv1 : v * 1 ≤ v * k := Nat.mul_le_mul_left v hk1
    rw [Nat.mul_one] at hv1
    rw [Nat.mul_one, Nat.mod_eq_of_lt hv, Nat.mod_eq_of_lt (by omega), Nat.mul_comm]
  have hto : ∀ r : Rectangle, Rectangle.to_svg r k = Rectangle.to_svg (scaleRect k r) 1 := by
    intro r
    unfold Rectangle.to_svg scaleRect
    dsimp only
    rw [Nat.mul_one, Nat.mul_one, Nat.mul_one, Nat.mul_one,
      Nat.mul_comm k r.x, Nat.mul_comm k r.y, Nat.mul_comm k r.width,
      Nat.mul_comm k r.height]
  refine ⟨?_, ⟨key w hw, key h hh⟩, ?_⟩
  · intro r hr
    obtain ⟨h1, h2, h3, h4⟩ := hrects r hr
    exact ⟨key r.x h1, key r.y h2, key r.width h3, key r.height h4, hto r⟩
  · unfold create_svg
    dsimp only
    rw [List.map_map]
    have hfn : (fun rect => Rectangle.to_svg rect k ++ "\n") =
        ((fun rect => Rectangle.to_svg rect 1 ++ "\n") ∘ scaleRect k) := by
      funext r
      simp [Function.comp, hto r]
    rw [hfn, Nat.mul_one, Nat.mul_one, Nat.mul_comm k w, Nat.mul_comm k h]

/-- Concrete run of the amended scale-linearity theorem at `k = 4` on the
2×2 red square (spec scenario 5: the rectangle scales to `(0, 0, 8, 8)`
and the document to 8×8), where no product overflows. -/
theorem scale_linearity_witness :
    ((1 ≤ 4 ∧ 4 ≤ 1000) ∧ 2 * 4 < U32 ∧ 2 * 4 < U32 ∧
      (∀ r ∈ [(⟨0, 0, 2, 2, wRed⟩ : Rectangle)], r.x * 4 < U32 ∧ r.y * 4 < U32 ∧
        r.width * 4 < U32 ∧ r.height * 4 < U32)) ∧
    ((∀ r ∈ [(⟨0, 0, 2, 2, wRed⟩ : Rectangle)],
      r.x * 4 % U32 = 4 * (r.x * 1 % U32) ∧ r.y * 4 % U32 = 4 * (r.y * 1 % U32) ∧
      r.width * 4 % U32 = 4 * (r.width * 1 % U32) ∧
      r.height * 4 % U32 = 4 * (r.height * 1 % U32) ∧
      Rectangle.to_svg r 4 = Rectangle.to_svg (scaleRect 4 r) 1) ∧
    (2 * 4 % U32 = 4 * (2 * 1 % U32) ∧ 2 * 4 % U32 = 4 * (2 * 1 % U32)) ∧
    create_svg [⟨0, 0, 2, 2, wRed⟩] 2 2 ⟨4, 1, true, true⟩ =
      create_svg ([⟨0, 0, 2, 2, wRed⟩].map (scaleRect 4)) (4 * 2) (4 * 2)
        ⟨1, 1, true, true⟩) :=
  ⟨⟨by omega, by decide, by decide, by decide⟩,
    scale_linearity [⟨0, 0, 2, 2, wRed⟩] 2 2 4 1 true true (by omega)
      (by decide) (by decide) (by decide)⟩

/-! ## Opacity formatting (C8) -/

/-- `round3Num a` is the nearest-thousandth rounding of `a/255`: its value
over 1000 differs from `a/255` by less than half a thousandth (ties are
impossible by parity, so "nearest" is unambiguous). -/
lemma round3Num_approx (a : Nat) :
    |(round3Num a : ℚ) / 1000 - (a : ℚ) / 255| < 1 / 2000 := by
  have hA : 510 * round3Num a ≤ 2000 * a + 254 := by
    unfold round3Num
    omega
  have hB : 2000 * a ≤ 510 * round3Num a + 254 := by
    unfold round3Num
    omega
  have hAq : (510 : ℚ) * (round3Num a : ℚ) ≤ 2000 * (a : ℚ) + 254 := by exact_mod_cast hA
  have hBq : (2000 : ℚ) * (a : ℚ) ≤ 510 * (round3Num a : ℚ) + 254 := by exact_mod_cast hB
  rw [abs_lt]
  constructor <;> linarith

lemma digitChar_ne_p (k : Nat) : digitChar k ≠ 'p' := by
  unfold digitChar
  repeat' split
  all_goals decide

lemma hexChar_ne_p (k : Nat) : hexChar k ≠ 'p' := by
  unfold hexChar
  split
  · exact digitChar_ne_p k
  repeat' split
  all_goals decide

lemma natStrAux_chars : ∀ (fuel n : Nat), ∀ c ∈ natStrAux fuel n, c ≠ 'p' := by
  intro fuel
  induction fuel with
  | zero =>
    intro n c hc
    cases hc
  | succ fuel ih =>
    intro n c hc
    unfold natStrAux at hc
    split at hc
    · rcases List.mem_singleton.mp hc with rfl
      exact digitChar_ne_p n
    · rcases List.mem_append.mp hc with h | h
      · exact ih (n / 10) c h
      · rcases List.mem_singleton.mp h with rfl
        exact digitChar_ne_p (n % 10)

lemma natStr_chars (n : Nat) : ∀ c ∈ (natStr n).data, c ≠ 'p' :=
  natStrAux_chars (n + 1) n

lemma hex2_chars (n : Nat) : ∀ c ∈ (hex2 n).data, c ≠ 'p' := by
  intro c hc
  rcases List.mem_cons.mp hc with rfl | hc
  · exact hexChar_ne_p _
  rcases List.mem_cons.mp hc with rfl | hc
  · exact hexChar_ne_p _
  cases hc

lemma no_p_append {s t : String} (hs : ∀ c ∈ s.data, c ≠ 'p')
    (ht : ∀ c ∈ t.data, c ≠ 'p') : ∀ c ∈ (s ++ t).data, c ≠ 'p' := by
  intro c hc
  rcases List.mem_append.mp hc with h | h
  · exact hs c h
  · exact ht c h

lemma no_p_lit {s : String} (hs : 'p' ∉ s.data) : ∀ c ∈ s.data, c ≠ 'p' := by
  intro c hc heq
  rw [heq] at hc
  exact hs hc

lemma to_hex_chars (c : Color) : ∀ ch ∈ (Color.to_hex c).data, ch ≠ 'p' := by
  unfold Color.to_hex
  exact no_p_append (no_p_append (hex2_chars _) (hex2_chars _)) (hex2_chars _)

/-- A fully-opaque rectangle's SVG text contains no letter `p` at all (its
text is built only from tag/attribute literals without `p`, decimal digits
and uppercase hex digits). -/
lemma to_svg_no_p (rect : Rectangle) (scale : Nat) (ha : rect.color.a = 255) :
    ∀ c ∈ (Rectangle.to_svg rect scale).data, c ≠ 'p' := by
  unfold Rectangle.to_svg
  rw [if_neg (by simp [ha])]
  refine no_p_append ?_ (no_p_lit (by decide))
  refine no_p_append ?_ (no_p_lit (by decide))
  refine no_p_append ?_ (no_p_lit (by decide))
  refine no_p_append ?_ (to_hex_chars _)
  refine no_p_append ?_ (no_p_lit (by decide))
  refine no_p_append ?_ (natStr_chars _)
  refine no_p_append ?_ (no_p_lit (by decide))
  refine no_p_append ?_ (natStr_chars _)
  refine no_p_append ?_ (no_p_lit (by decide))
  refine no_p_append ?_ (natStr_chars _)
  refine no_p_append ?_ (no_p_lit (by decide))
  exact no_p_append (no_p_lit (by decide)) (natStr_chars _)

/-- C8: in the emitted SVG a rectangle whose color alpha is not 255 carries
an `opacity` attribute whose value is `alpha/255` rounded to exactly three
decimal places (the digit block `pad3 m` with `m` within half a thousandth
of `1000·alpha/255`), while a rectangle with alpha 255 carries no
occurrence of `opacity` anywhere in its text. -/
theorem opacity_attribute (rect : Rectangle) (scale : Nat) (ha : rect.color.a ≤ 255) :
    (rect.color.a ≠ 255 →
      ∃ s t m, Rectangle.to_svg rect scale =
          s ++ ("opacity=\"0." ++ pad3 m ++ "\" ") ++ t ∧
        m = round3Num rect.color.a ∧
        |(m : ℚ) / 1000 - (rect.color.a : ℚ) / 255| < 1 / 2000) ∧
    (rect.color.a = 255 →
      ∀ s t, Rectangle.to_svg rect scale ≠ s ++ "opacity" ++ t) := by
  constructor
  · intro hne
    refine ⟨"<rect x=\"" ++ natStr (rect.x * scale % U32) ++ "\" y=\"" ++
      natStr (rect.y * scale % U32) ++ "\" width=\"" ++
      natStr (rect.width * scale % U32) ++ "\" height=\"" ++
      natStr (rect.height * scale % U32) ++ "\" fill=\"#" ++
      rect.color.to_hex ++ "\" ", "/>", round3Num rect.color.a, ?_, rfl,
      round3Num_approx _⟩
    unfold Rectangle.to_svg
    rw [if_pos hne]
    apply String.ext
    simp [opacity3]
  · intro h255 s t heq
    have hp : 'p' ∈ (Rectangle.to_svg rect scale).data := by
      rw [heq]
      simp only [String.data_append, List.mem_append]
      refine Or.inl (Or.inr ?_)
      decide
    exact to_svg_no_p rect scale h255 'p' hp rfl

/-- Concrete run of the opacity theorem at alpha 128 (the attribute reads
`opacity="0.502"`) for the positive branch; the `a = 255` branch is
instantiated vacuously at the same rectangle. -/
theorem opacity_attribute_witness :
    ((⟨255, 0, 0, 128⟩ : Color).a ≤ 255) ∧
    (((⟨255, 0, 0, 128⟩ : Color).a ≠ 255 →
      ∃ s t m, Rectangle.to_svg ⟨0, 0, 2, 2, ⟨255, 0, 0, 128⟩⟩ 1 =
          s ++ ("opacity=\"0." ++ pad3 m ++ "\" ") ++ t ∧
        m = round3Num (⟨255, 0, 0, 128⟩ : Color).a ∧
        |(m : ℚ) / 1000 - ((⟨255, 0, 0, 128⟩ : Color).a : ℚ) / 255| < 1 / 2000) ∧
     ((⟨255, 0, 0, 128⟩ : Color).a = 255 →
      ∀ s t, Rectangle.to_svg ⟨0, 0, 2, 2, ⟨255, 0, 0, 128⟩⟩ 1 ≠
        s ++ "opacity" ++ t)) :=
  ⟨by decide, opacity_attribute ⟨0, 0, 2, 2, ⟨255, 0, 0, 128⟩⟩ 1 (by decide)⟩
